import Mathlib

/-!
Verification development for the segmented vector store (`iceberg_store.hpp`),
the engine facade (`vector_db.hpp`), the HNSW payload bookkeeping (`hnsw.hpp`)
and the random-hyperplane LSH cosine kernel (`lsh.hpp`).

Modelling conventions:
* `uint64_t` ids are exact naturals (ids are only stored, hashed into sets and
  compared for equality, never computed with).
* `float` embedding and distance values are `ℚ` wherever the code only moves
  them around, and `ℝ` for the one kernel (`cosine_sim`) whose arithmetic a
  claim is about.
* `size_t` record counts are exact naturals.  The one subtraction the store
  performs on counts that can genuinely underflow at run time
  (`live_count = n - |tombstones|`) is modelled with wrap-around arithmetic
  modulo `2 ^ 64`, exactly as unsigned machine subtraction behaves.
* The file system is modelled by keeping the columns `write_parquet` writes
  inside the sealed-segment descriptor; `read_parquet` decodes them back.
* The store mutex serialises every public operation, so the sequential
  functions below are the per-operation semantics; snapshot timestamps
  (wall-clock) are not modelled.
-/

namespace vectordb

/-- A single row of the table (`VectorRecord` in `iceberg_store.hpp`). -/
structure VectorRecord where
  id : ℕ
  embedding : List ℚ
  metadata : String
deriving DecidableEq

/-- Wrap-around subtraction of two `size_t` counts: C++ computes
`a - b` in unsigned 64-bit arithmetic, which wraps past zero. -/
def subU64 (a b : ℕ) : ℕ := (((a : ℤ) - (b : ℤ)) % (2 ^ 64 : ℤ)).toNat

/-- The contents of one segment file as `IcebergStore::write_parquet` lays it
out: the `id` column, the flat `embedding` column (`n·dim` floats backing a
fixed-size-list array) and the `metadata` column. -/
structure ParquetFile where
  ids : List ℕ
  flat : List ℚ
  metas : List String
deriving DecidableEq

/-- `IcebergStore::write_parquet`: flatten the records into the three
columns (ids in order, embeddings concatenated, metadata strings in order). -/
def write_parquet (records : List VectorRecord) : ParquetFile :=
  { ids := records.map (fun r => r.id)
  , flat := (records.map (fun r => r.embedding)).flatten
  , metas := records.map (fun r => r.metadata) }

/-- The row loop of `IcebergStore::read_parquet`: row `i` is rebuilt from
`ids[i]`, the flat slice `[i*dim, (i+1)*dim)` and `metas[i]`, and is kept
exactly when its id is not in the tombstone set.  The slice offset advances
with the row index whether or not the row is kept. -/
def read_rows (dim : ℕ) (deleted : Finset ℕ) :
    List ℕ → List ℚ → List String → List VectorRecord
  | [], _, _ => []
  | i :: ids, flat, metas =>
    let rest := read_rows dim deleted ids (flat.drop dim) metas.tail
    if i ∈ deleted then rest
    else { id := i, embedding := flat.take dim, metadata := metas.headD "" } :: rest

/-- `IcebergStore::read_parquet`: decode a segment file, dropping the rows
whose id is tombstoned. -/
def read_parquet (dim : ℕ) (file : ParquetFile) (deleted : Finset ℕ) :
    List VectorRecord :=
  read_rows dim deleted file.ids file.flat file.metas

/-- All rows a segment file decodes to: a read with no tombstones. -/
def file_rows (dim : ℕ) (file : ParquetFile) : List VectorRecord :=
  read_parquet dim file ∅

/-- The mutable active segment (`Segment` in `iceberg_store.hpp`). -/
structure Segment where
  segment_id : ℕ
  records : List VectorRecord
  deleted : Finset ℕ
deriving DecidableEq

/-- `Segment::live_count`: `records.size() - deleted.size()` in `size_t`
arithmetic. -/
def Segment.live_count (seg : Segment) : ℕ :=
  subU64 seg.records.length seg.deleted.card

/-- An immutable sealed segment (`SealedSegment` in `iceberg_store.hpp`).
The `filepath` member is replaced by the file contents themselves. -/
structure SealedSegment where
  segment_id : ℕ
  file : ParquetFile
  num_records : ℕ
  deleted : Finset ℕ
deriving DecidableEq

/-- `SealedSegment::live_count`: `num_records - deleted.size()` in `size_t`
arithmetic (this subtraction can underflow at run time, because deletes of
absent ids still enter every sealed tombstone set). -/
def SealedSegment.live_count (seg : SealedSegment) : ℕ :=
  subU64 seg.num_records seg.deleted.card

/-- `SealedSegment::tombstone_ratio`: `|deleted| / num_records`, `0` when the
segment is empty.  The C++ quotient is a `float`; the exact rational agrees
with it on which side of any threshold a ratio falls whenever the `float`
division is exact, and every claim treats the ratio as this quotient. -/
def SealedSegment.tombstone_ratio (seg : SealedSegment) : ℚ :=
  if seg.num_records = 0 then 0
  else (seg.deleted.card : ℚ) / (seg.num_records : ℚ)

/-- An Iceberg snapshot (`Snapshot` in `iceberg_store.hpp`), minus the
wall-clock timestamp. -/
structure Snapshot where
  snapshot_id : ℕ
  segment_ids : List ℕ
deriving DecidableEq

/-- The whole store state guarded by the mutex of `IcebergStore`. -/
structure IcebergStore where
  dim : ℕ
  segment_capacity : ℕ
  next_segment_id : ℕ
  active_segment : Segment
  sealed_segments : List SealedSegment
  snapshots : List Snapshot
deriving DecidableEq

/-- `IcebergStore::commit_snapshot`: append a snapshot recording the sealed
segment ids in their current order. -/
def commit_snapshot (s : IcebergStore) : IcebergStore :=
  { s with snapshots := s.snapshots ++
      [{ snapshot_id := s.snapshots.length
       , segment_ids := s.sealed_segments.map (fun seg => seg.segment_id) }] }

/-- The `IcebergStore` constructor: a fresh empty active segment with id 0,
and the initial snapshot.  (Directory creation is a file-system effect with
no observable state here.) -/
def IcebergStore.openStore (dim segment_capacity : ℕ) : IcebergStore :=
  commit_snapshot
    { dim := dim, segment_capacity := segment_capacity, next_segment_id := 1
    , active_segment := { segment_id := 0, records := [], deleted := ∅ }
    , sealed_segments := [], snapshots := [] }

/-- `IcebergStore::flush_active_segment_locked`: no-op when the active
segment is empty; otherwise write its records to a fresh file, move the
descriptor (with the active tombstones) onto the sealed list, start a new
empty active segment with a fresh id, and commit a snapshot. -/
def flush_active_segment_locked (s : IcebergStore) : IcebergStore :=
  if s.active_segment.records.isEmpty then s
  else
    commit_snapshot
      { s with
        sealed_segments := s.sealed_segments ++
          [{ segment_id := s.active_segment.segment_id
           , file := write_parquet s.active_segment.records
           , num_records := s.active_segment.records.length
           , deleted := s.active_segment.deleted }]
      , active_segment := { segment_id := s.next_segment_id, records := [], deleted := ∅ }
      , next_segment_id := s.next_segment_id + 1 }

/-- `IcebergStore::insert`.  The dimension check throws before any mutation,
so an error leaves the caller with the store exactly as it was; on success
the record is appended and the segment sealed when the count reaches
capacity. -/
def IcebergStore.insert (s : IcebergStore) (i : ℕ) (embedding : List ℚ)
    (metadata : String) : Except String IcebergStore :=
  if embedding.length ≠ s.dim then Except.error "Dimension mismatch"
  else
    let s1 := { s with active_segment := { s.active_segment with
                  records := s.active_segment.records ++
                    [{ id := i, embedding := embedding, metadata := metadata }] } }
    if s.segment_capacity ≤ s1.active_segment.records.length then
      Except.ok (flush_active_segment_locked s1)
    else Except.ok s1

/-- The loop of `IcebergStore::bulk_insert`: record `i` is built from
`ids[i]` and the flat slice `[i*dim, (i+1)*dim)` with empty metadata, and
the active segment is sealed whenever it reaches capacity. -/
def bulk_insert_loop (dim : ℕ) : IcebergStore → List ℕ → List ℚ → ℕ → IcebergStore
  | s, _, _, 0 => s
  | s, ids, flat, n + 1 =>
    let s1 := { s with active_segment := { s.active_segment with
                  records := s.active_segment.records ++
                    [{ id := ids.headD 0, embedding := flat.take dim, metadata := "" }] } }
    let s2 := if s1.segment_capacity ≤ s1.active_segment.records.length then
                flush_active_segment_locked s1
              else s1
    bulk_insert_loop dim s2 ids.tail (flat.drop dim) n

/-- `IcebergStore::bulk_insert`. -/
def IcebergStore.bulk_insert (s : IcebergStore) (ids : List ℕ) (flat : List ℚ)
    (count dim : ℕ) : Except String IcebergStore :=
  if dim ≠ s.dim then Except.error "Dimension mismatch in bulk insert"
  else Except.ok (bulk_insert_loop dim s ids flat count)

/-- `IcebergStore::delete_vector`: tombstone in the active segment when the
id occurs there, otherwise tombstone it in every sealed segment's set. -/
def IcebergStore.delete_vector (s : IcebergStore) (i : ℕ) : IcebergStore :=
  if s.active_segment.records.any (fun r => r.id == i) then
    { s with active_segment :=
        { s.active_segment with deleted := Insert.insert i s.active_segment.deleted } }
  else
    { s with sealed_segments :=
        s.sealed_segments.map (fun seg => { seg with deleted := Insert.insert i seg.deleted }) }

/-- `IcebergStore::flush`. -/
def IcebergStore.flush (s : IcebergStore) : IcebergStore :=
  flush_active_segment_locked s

/-- `IcebergStore::scan_all`: live rows of each sealed segment file in
sealing order, then the live active records in insertion order. -/
def IcebergStore.scan_all (s : IcebergStore) : List VectorRecord :=
  (s.sealed_segments.map
      (fun seg => read_parquet s.dim seg.file seg.deleted)).flatten
  ++ s.active_segment.records.filter
      (fun r => decide (r.id ∉ s.active_segment.deleted))

/-- The partition loop of `IcebergStore::compact`, front to back: a segment
at or above the threshold has its live rows read and its row deficit added
to `reclaimed`; a segment below it is kept.  (`initial_count -
records.size()` cannot underflow on a file the store wrote, whose row count
is `num_records`, so plain truncated subtraction coincides with `size_t`
subtraction here.) -/
def compact_loop (dim : ℕ) (t : ℚ) :
    List SealedSegment → List SealedSegment × List VectorRecord × ℕ
  | [] => ([], [], 0)
  | seg :: rest =>
    let r := compact_loop dim t rest
    if t ≤ seg.tombstone_ratio then
      let records := read_parquet dim seg.file seg.deleted
      (r.1, records ++ r.2.1, seg.num_records - records.length + r.2.2)
    else
      (seg :: r.1, r.2.1, r.2.2)

/-- `IcebergStore::compact`: partition the sealed segments, rewrite the live
rows of the dirty ones into one fresh sealed segment when any exist, commit
a snapshot, and return the reclaimed row count. -/
def IcebergStore.compact (s : IcebergStore) (t : ℚ) : IcebergStore × ℕ :=
  let r := compact_loop s.dim t s.sealed_segments
  if r.2.1.isEmpty then
    (commit_snapshot { s with sealed_segments := r.1 }, r.2.2)
  else
    (commit_snapshot
      { s with
        sealed_segments := r.1 ++
          [{ segment_id := s.next_segment_id
           , file := write_parquet r.2.1
           , num_records := r.2.1.length
           , deleted := ∅ }]
      , next_segment_id := s.next_segment_id + 1 }, r.2.2)

/-- `IcebergStore::total_records`: active record count plus every sealed
`num_records`. -/
def IcebergStore.total_records (s : IcebergStore) : ℕ :=
  s.active_segment.records.length +
    (s.sealed_segments.map (fun seg => seg.num_records)).sum

/-- `IcebergStore::total_live_records`: active live count plus every sealed
live count. -/
def IcebergStore.total_live_records (s : IcebergStore) : ℕ :=
  s.active_segment.live_count +
    (s.sealed_segments.map SealedSegment.live_count).sum

/-- `IcebergStore::sealed_segment_count`. -/
def IcebergStore.sealed_segment_count (s : IcebergStore) : ℕ :=
  s.sealed_segments.length

/-- `IcebergStore::snapshot_count`. -/
def IcebergStore.snapshot_count (s : IcebergStore) : ℕ :=
  s.snapshots.length

/-- Run `IcebergStore::insert` and keep the previous state when it throws:
the dimension check precedes any mutation, so a caller that catches the
exception observes exactly the old store. -/
def stepInsert (s : IcebergStore) (i : ℕ) (e : List ℚ) (m : String) : IcebergStore :=
  match s.insert i e m with
  | Except.ok t => t
  | Except.error _ => s

/-- The store states produced by some sequence of public store operations
after `open` (read-only operations do not change the state). -/
inductive Reachable : IcebergStore → Prop
  | of_open (dim cap : ℕ) : Reachable (IcebergStore.openStore dim cap)
  | of_insert {s s' : IcebergStore} (i : ℕ) (e : List ℚ) (m : String) :
      Reachable s → s.insert i e m = Except.ok s' → Reachable s'
  | of_bulk_insert {s s' : IcebergStore} (ids : List ℕ) (flat : List ℚ)
      (count dim : ℕ) :
      Reachable s → s.bulk_insert ids flat count dim = Except.ok s' → Reachable s'
  | of_delete {s : IcebergStore} (i : ℕ) : Reachable s → Reachable (s.delete_vector i)
  | of_flush {s : IcebergStore} : Reachable s → Reachable s.flush
  | of_compact {s : IcebergStore} (t : ℚ) : Reachable s → Reachable (s.compact t).1

/-- One candidate returned by the index search
(`HNSWIndex::SearchResult` in `hnsw.hpp`). -/
structure SearchResult where
  distance : ℚ
  id : ℕ
deriving DecidableEq

/-- The HNSW index state the engine claims depend on: the construction
parameters and the owned payload array `vectors_`, to which `insert`
appends (assigning internal id = previous size).  The navigation graph,
entry point, level counter and the seeded PRNG of `hnsw.hpp` are not
modelled: they decide only which candidates a graph search returns, and
every claim below holds for an arbitrary candidate list. -/
structure HNSWIndex where
  dim : ℕ
  M : ℕ
  M_max0 : ℕ
  ef_construction : ℕ
  ef_search : ℕ
  vectors : List (List ℚ)
deriving DecidableEq

/-- The `HNSWIndex` constructor: `M_max0 = 2·M`, empty payload array. -/
def HNSWIndex.init (dim M ef_construction ef_search : ℕ) : HNSWIndex :=
  { dim := dim, M := M, M_max0 := 2 * M, ef_construction := ef_construction
  , ef_search := ef_search, vectors := [] }

/-- `HNSWIndex::insert`: appends the vector to `vectors_` (the returned
internal id is the previous size; the graph update is not modelled). -/
def HNSWIndex.insert (h : HNSWIndex) (v : List ℚ) : HNSWIndex :=
  { h with vectors := h.vectors ++ [v] }

/-- `HNSWIndex::build`: insert every vector in order. -/
def HNSWIndex.build (h : HNSWIndex) (vs : List (List ℚ)) : HNSWIndex :=
  vs.foldl HNSWIndex.insert h

/-- `HNSWIndex::set_ef_search`. -/
def HNSWIndex.set_ef_search (h : HNSWIndex) (ef : ℕ) : HNSWIndex :=
  { h with ef_search := ef }

/-- `HNSWIndex::size`. -/
def HNSWIndex.size (h : HNSWIndex) : ℕ := h.vectors.length

/-- One enriched result of `VectorDB::search` (`VDBSearchResult`). -/
structure VDBSearchResult where
  id : ℕ
  distance : ℚ
  metadata : String
deriving DecidableEq

/-- The engine state (`VectorDB` in `vector_db.hpp`). -/
structure VectorDB where
  dim : ℕ
  store : IcebergStore
  hnsw : HNSWIndex
deriving DecidableEq

/-- The `VectorDB` constructor: the store gets the engine dimension and
segment capacity, the index gets the engine ANN parameters. -/
def VectorDB.init (dim M ef_construct ef_search seg_capacity : ℕ) : VectorDB :=
  { dim := dim
  , store := IcebergStore.openStore dim seg_capacity
  , hnsw := HNSWIndex.init dim M ef_construct ef_search }

/-- An Arrow record batch as `VectorDB::ingest_batch` consumes it:
`GetColumnByName` yields the column or null, so each column is an
`Option`; the embedding column carries its fixed list size and the flat
float buffer.  The metadata column is carried so that its (non-)use can be
stated. -/
structure RecordBatch where
  id_col : Option (List ℕ)
  embedding_col : Option (ℕ × List ℚ)
  metadata_col : Option (List String)
  num_rows : ℕ
deriving DecidableEq

/-- The per-row index-insertion loop of `VectorDB::ingest_batch`: vector
`i` is the flat slice `[i*dim, (i+1)*dim)`. -/
def hnsw_ingest_loop (dim : ℕ) : HNSWIndex → List ℚ → ℕ → HNSWIndex
  | h, _, 0 => h
  | h, flat, n + 1 => hnsw_ingest_loop dim (h.insert (flat.take dim)) (flat.drop dim) n

/-- `VectorDB::ingest_batch`: locate the `id` and `embedding` columns,
check the embedding list size against the engine dimension, bulk-insert
the raw id/float buffers into the store, then insert each vector into the
index.  The metadata column is never read. -/
def VectorDB.ingest_batch (db : VectorDB) (batch : RecordBatch) :
    Except String (VectorDB × ℕ) :=
  match batch.id_col with
  | none => Except.error "Batch missing id UINT64 column"
  | some ids =>
    match batch.embedding_col with
    | none => Except.error "Batch missing embedding FLOAT32_ARRAY column"
    | some (list_size, flat) =>
      if list_size ≠ db.dim then Except.error "Embedding dimension mismatch"
      else
        match db.store.bulk_insert ids flat batch.num_rows db.dim with
        | Except.error e => Except.error e
        | Except.ok store2 =>
          let db2 :=
            { db with
              store := store2
            , hnsw := hnsw_ingest_loop db.dim db.hnsw flat batch.num_rows }
          Except.ok (db2, batch.num_rows)

/-- `VectorDB::insert`: delegate to store and index. -/
def VectorDB.insert (db : VectorDB) (i : ℕ) (embedding : List ℚ)
    (metadata : String) : Except String VectorDB :=
  match db.store.insert i embedding metadata with
  | Except.error e => Except.error e
  | Except.ok store2 =>
    Except.ok { db with store := store2, hnsw := db.hnsw.insert embedding }

/-- The result-collection loop of `VectorDB::search`: for each candidate
whose internal id is in range of the scan, push the enriched record, then
break as soon as `results.size() ≥ k` (the size test runs after the push,
at the bottom of the loop body). -/
def search_loop (all : List VectorRecord) (k : ℕ) :
    List SearchResult → List VDBSearchResult → List VDBSearchResult
  | [], acc => acc
  | hr :: rest, acc =>
    let acc2 := match all[hr.id]? with
      | some rec => acc ++ [{ id := rec.id, distance := hr.distance, metadata := rec.metadata }]
      | none => acc
    if k ≤ acc2.length then acc2 else search_loop all k rest acc2

/-- `VectorDB::search`.  `hnsw_results` stands for the candidate list the
graph search returns after `ef_search` has been set to `max(2k, 50)`; the
graph traversal itself is not modelled (see `HNSWIndex`), and the engine
properties claimed of `search` hold for every candidate list. -/
def VectorDB.search (db : VectorDB) (query : List ℚ) (k : ℕ)
    (hnsw_results : List SearchResult) :
    Except String (VectorDB × List VDBSearchResult) :=
  if query.length ≠ db.dim then Except.error "Query dimension mismatch"
  else
    let ef := max (k * 2) 50
    let db2 := { db with hnsw := db.hnsw.set_ef_search ef }
    let all_records := db.store.scan_all
    Except.ok (db2, search_loop all_records k hnsw_results [])

/-- `VectorDB::delete_vector`: delegate to the store only. -/
def VectorDB.delete_vector (db : VectorDB) (i : ℕ) : VectorDB :=
  { db with store := db.store.delete_vector i }

/-- `VectorDB::compact_and_rebuild`: compact the store, then replace the
index with a freshly constructed `HNSWIndex(dim_, 16, 200, 50)` built from
the embeddings of the live records in scan order. -/
def VectorDB.compact_and_rebuild (db : VectorDB) (threshold : ℚ) : VectorDB × ℕ :=
  let res := db.store.compact threshold
  let live := res.1.scan_all
  let hnsw2 := (HNSWIndex.init db.dim 16 200 50).build (live.map (fun r => r.embedding))
  ({ db with store := res.1, hnsw := hnsw2 }, res.2)

/-- The accumulation loop shared by the three sums of
`RandomHyperplaneLSH::cosine_sim` in `lsh.hpp` (`dot`, `na`, `nb`):
`Σ xᵢ·yᵢ` over the common length.  The C++ `float` values are modelled as
exact reals. -/
def dot_sum (x y : List ℝ) : ℝ := (List.zipWith (fun a b => a * b) x y).sum

/-- `RandomHyperplaneLSH::cosine_sim`: `dot / (√na · √nb)` when that
denominator exceeds `1e-10`, else `0`. -/
noncomputable def cosine_sim (a b : List ℝ) : ℝ :=
  if 1e-10 < Real.sqrt (dot_sum a a) * Real.sqrt (dot_sum b b) then
    dot_sum a b / (Real.sqrt (dot_sum a a) * Real.sqrt (dot_sum b b))
  else 0

/-! ### Basic reading lemmas -/

lemma read_rows_eq_filter (dim : ℕ) (d : Finset ℕ) :
    ∀ (ids : List ℕ) (flat : List ℚ) (metas : List String),
      read_rows dim d ids flat metas =
        (read_rows dim ∅ ids flat metas).filter (fun r => decide (r.id ∉ d)) := by
  intro ids
  induction ids with
  | nil => intro flat metas; simp [read_rows]
  | cons i ids ih =>
    intro flat metas
    simp only [read_rows, Finset.not_mem_empty, if_false]
    by_cases h : i ∈ d
    · simp [h, ih, List.filter_cons]
    · simp [h, ih, List.filter_cons]

lemma build_eq (vs : List (List ℚ)) :
    ∀ h : HNSWIndex, h.build vs = { h with vectors := h.vectors ++ vs } := by
  induction vs with
  | nil => intro h; simp [HNSWIndex.build]
  | cons v vs ih =>
    intro h
    have step : HNSWIndex.build h (v :: vs) = HNSWIndex.build (h.insert v) vs := rfl
    rw [step, ih (h.insert v)]
    simp [HNSWIndex.insert]

@[simp] lemma commit_snapshot_active (s : IcebergStore) :
    (commit_snapshot s).active_segment = s.active_segment := rfl

@[simp] lemma commit_snapshot_sealed (s : IcebergStore) :
    (commit_snapshot s).sealed_segments = s.sealed_segments := rfl

@[simp] lemma commit_snapshot_dim (s : IcebergStore) :
    (commit_snapshot s).dim = s.dim := rfl

@[simp] lemma commit_snapshot_capacity (s : IcebergStore) :
    (commit_snapshot s).segment_capacity = s.segment_capacity := rfl

@[simp] lemma commit_snapshot_next (s : IcebergStore) :
    (commit_snapshot s).next_segment_id = s.next_segment_id := rfl

lemma compact_loop_eq (dim : ℕ) (t : ℚ) : ∀ l : List SealedSegment,
    compact_loop dim t l =
      (l.filter (fun seg => decide (seg.tombstone_ratio < t)),
       ((l.filter (fun seg => decide (t ≤ seg.tombstone_ratio))).map
           (fun seg => read_parquet dim seg.file seg.deleted)).flatten,
       ((l.filter (fun seg => decide (t ≤ seg.tombstone_ratio))).map
           (fun seg => seg.num_records - (read_parquet dim seg.file seg.deleted).length)).sum) := by
  intro l
  induction l with
  | nil => simp [compact_loop]
  | cons seg rest ih =>
    simp only [compact_loop, ih]
    by_cases h : t ≤ seg.tombstone_ratio
    · simp [h, List.filter_cons, not_lt.2 h]
    · simp [h, List.filter_cons, not_le.1 h]

/-- The sealed segments whose tombstone ratio is at or above the threshold
(the segments `compact` rewrites). -/
def dirty_segments (s : IcebergStore) (t : ℚ) : List SealedSegment :=
  s.sealed_segments.filter (fun seg => decide (t ≤ seg.tombstone_ratio))

/-- The sealed segments whose tombstone ratio is below the threshold (the
segments `compact` keeps as they are). -/
def clean_segments (s : IcebergStore) (t : ℚ) : List SealedSegment :=
  s.sealed_segments.filter (fun seg => decide (seg.tombstone_ratio < t))

/-- Wrap-around subtraction loses at most one per extra tombstone. -/
lemma subU64_le_succ_add_one (n c : ℕ) : subU64 n c ≤ subU64 n (c + 1) + 1 := by
  unfold subU64
  have hW : (2 : ℤ) ^ 64 = 18446744073709551616 := by norm_num
  rw [hW]
  omega

lemma sum_map_le_sum_map_add_length {α : Type} (f g : α → ℕ) :
    ∀ l : List α, (∀ a ∈ l, f a ≤ g a + 1) →
      (l.map f).sum ≤ (l.map g).sum + l.length := by
  intro l
  induction l with
  | nil => simp
  | cons a l ih =>
    intro h
    have ha := h a (List.mem_cons_self a l)
    have hl := ih (fun x hx => h x (List.mem_cons_of_mem a hx))
    simp only [List.map_cons, List.sum_cons, List.length_cons]
    omega

/-- How many segments of the store contain the id: the active segment
counts when some active record carries it, a sealed segment counts when the
id is among its file's rows. -/
def places_count (s : IcebergStore) (i : ℕ) : ℕ :=
  (if s.active_segment.records.any (fun r => r.id == i) then 1 else 0) +
    (s.sealed_segments.filter (fun seg => decide (i ∈ seg.file.ids))).length

/-! ### Claim theorems -/

/-- C1: `scan_all` returns exactly the live records — for each sealed
segment, in sealing order, the rows of its file whose id is not in that
segment's tombstone set, followed by the active segment's records in
insertion order whose id is not in the active tombstone set. -/
theorem scan_all_eq_live_rows (s : IcebergStore) :
    s.scan_all =
      (s.sealed_segments.map (fun seg =>
          (file_rows s.dim seg.file).filter (fun r => decide (r.id ∉ seg.deleted)))).flatten
      ++ s.active_segment.records.filter
          (fun r => decide (r.id ∉ s.active_segment.deleted)) := by
  have key : ∀ seg : SealedSegment,
      read_parquet s.dim seg.file seg.deleted =
        (file_rows s.dim seg.file).filter (fun r => decide (r.id ∉ seg.deleted)) := by
    intro seg
    simpa [read_parquet, file_rows] using
      read_rows_eq_filter s.dim seg.deleted seg.file.ids seg.file.flat seg.file.metas
  simp only [IcebergStore.scan_all, key]

/-- C2: `delete_vector` only moves tombstones: records, files and
`num_records` of every segment are untouched; when the id occurs among the
active records only the active tombstone set gains the id, otherwise every
sealed tombstone set gains it and the active set is untouched. -/
theorem delete_vector_frame (s : IcebergStore) (i : ℕ) :
    ((s.delete_vector i).active_segment.records = s.active_segment.records ∧
     (s.delete_vector i).sealed_segments.map (fun seg => seg.num_records) =
       s.sealed_segments.map (fun seg => seg.num_records) ∧
     (s.delete_vector i).sealed_segments.map (fun seg => seg.file) =
       s.sealed_segments.map (fun seg => seg.file)) ∧
    (if s.active_segment.records.any (fun r => r.id == i) then
      (s.delete_vector i).active_segment.deleted = Insert.insert i s.active_segment.deleted ∧
      (s.delete_vector i).sealed_segments.map (fun seg => seg.deleted) =
        s.sealed_segments.map (fun seg => seg.deleted)
    else
      (s.delete_vector i).sealed_segments.map (fun seg => seg.deleted) =
        s.sealed_segments.map (fun seg => Insert.insert i seg.deleted) ∧
      (s.delete_vector i).active_segment.deleted = s.active_segment.deleted) := by
  unfold IcebergStore.delete_vector
  by_cases h : s.active_segment.records.any (fun r => r.id == i)
  · simp [h]
  · simp [h]

/-- C6: store `insert` fails with the dimension-mismatch error exactly when
the embedding length differs from `dim` (the throw precedes any mutation,
so the erroring call leaves the store unchanged); on success the record is
appended to the active segment, and the segment is sealed precisely when
its record count reaches `segment_capacity`. -/
theorem insert_spec (s : IcebergStore) (i : ℕ) (e : List ℚ) (m : String) :
    (s.insert i e m = Except.error "Dimension mismatch" ↔ e.length ≠ s.dim) ∧
    (e.length = s.dim →
      ∃ s2, s.insert i e m = Except.ok s2 ∧
        (s.active_segment.records.length + 1 < s.segment_capacity →
          s2.active_segment.records =
            s.active_segment.records ++ [{ id := i, embedding := e, metadata := m }] ∧
          s2.active_segment.deleted = s.active_segment.deleted ∧
          s2.sealed_segments = s.sealed_segments) ∧
        (s.segment_capacity ≤ s.active_segment.records.length + 1 →
          s2.active_segment.records = [] ∧
          s2.sealed_segments = s.sealed_segments ++
            [{ segment_id := s.active_segment.segment_id
             , file := write_parquet (s.active_segment.records ++
                 [{ id := i, embedding := e, metadata := m }])
             , num_records := s.active_segment.records.length + 1
             , deleted := s.active_segment.deleted }])) := by
  constructor
  · unfold IcebergStore.insert
    by_cases h : e.length = s.dim
    · simp only [h, ne_eq, not_true_eq_false, if_false, iff_false]
      split <;> simp
    · simp [h]
  · intro h
    unfold IcebergStore.insert
    rw [if_neg (by simp [h])]
    by_cases hc : s.segment_capacity ≤ s.active_segment.records.length + 1
    · rw [if_pos (by simpa using hc)]
      refine ⟨_, rfl, fun hlt => absurd hc (by omega), fun _ => ?_⟩
      unfold flush_active_segment_locked
      rw [if_neg (by simp)]
      constructor
      · rfl
      · simp [commit_snapshot]
    · rw [if_neg (by simpa using hc)]
      refine ⟨_, rfl, fun _ => ⟨rfl, rfl, rfl⟩, fun hle => absurd hle hc⟩

/-- C10: `compact_and_rebuild` replaces the index by one constructed with
the fixed parameters `M = 16`, `ef_construction = 200`, `ef_search = 50`
(whatever the engine was configured with), holding exactly the embeddings
of the live records of `scan_all`, in scan order; the store is the
compacted store and the returned count is what `compact` reclaimed. -/
theorem compact_and_rebuild_resets_index (db : VectorDB) (t : ℚ) :
    (db.compact_and_rebuild t).1.hnsw.M = 16 ∧
    (db.compact_and_rebuild t).1.hnsw.ef_construction = 200 ∧
    (db.compact_and_rebuild t).1.hnsw.ef_search = 50 ∧
    (db.compact_and_rebuild t).1.hnsw.vectors =
      ((db.compact_and_rebuild t).1.store.scan_all).map (fun r => r.embedding) ∧
    (db.compact_and_rebuild t).1.store = (db.store.compact t).1 ∧
    (db.compact_and_rebuild t).2 = (db.store.compact t).2 := by
  unfold VectorDB.compact_and_rebuild
  simp [build_eq, HNSWIndex.init]

/-- C5: `compact t` keeps the segments with ratio below `t` unchanged in
order, rewrites the live rows of the dirty segments into at most one new
sealed segment (created only when some live rows exist), and returns the
sum over rewritten segments of `num_records` minus the live rows read;
with no qualifying segment it returns 0 and leaves the sealed-segment
count and the total live count unchanged. -/
theorem compact_spec (s : IcebergStore) (t : ℚ) :
    ((s.compact t).1.sealed_segments =
       clean_segments s t ++
         (if ((dirty_segments s t).map
                (fun seg => read_parquet s.dim seg.file seg.deleted)).flatten = [] then []
          else
            [{ segment_id := s.next_segment_id
             , file := write_parquet (((dirty_segments s t).map
                 (fun seg => read_parquet s.dim seg.file seg.deleted)).flatten)
             , num_records := (((dirty_segments s t).map
                 (fun seg => read_parquet s.dim seg.file seg.deleted)).flatten).length
             , deleted := ∅ }])) ∧
    ((s.compact t).2 =
       ((dirty_segments s t).map
          (fun seg => seg.num_records - (read_parquet s.dim seg.file seg.deleted).length)).sum) ∧
    (dirty_segments s t = [] →
       (s.compact t).2 = 0 ∧
       (s.compact t).1.sealed_segment_count = s.sealed_segment_count ∧
       (s.compact t).1.total_live_records = s.total_live_records) := by
  have hloop := compact_loop_eq s.dim t s.sealed_segments
  have hdirty : dirty_segments s t =
      s.sealed_segments.filter (fun seg => decide (t ≤ seg.tombstone_ratio)) := rfl
  have hcleanr : clean_segments s t =
      s.sealed_segments.filter (fun seg => decide (seg.tombstone_ratio < t)) := rfl
  refine ⟨?_, ?_, ?_⟩
  · simp only [IcebergStore.compact, hloop]
    by_cases h : (((s.sealed_segments.filter
        (fun seg => decide (t ≤ seg.tombstone_ratio))).map
        (fun seg => read_parquet s.dim seg.file seg.deleted)).flatten).isEmpty
    · rw [if_pos h, if_pos (by rw [hdirty]; exact List.isEmpty_iff.1 h)]
      simp [hcleanr]
    · rw [if_neg h, if_neg (by rw [hdirty]; exact fun hc => h (List.isEmpty_iff.2 hc))]
      simp [hcleanr, hdirty]
  · simp only [IcebergStore.compact, hloop]
    by_cases h : (((s.sealed_segments.filter
        (fun seg => decide (t ≤ seg.tombstone_ratio))).map
        (fun seg => read_parquet s.dim seg.file seg.deleted)).flatten).isEmpty
    · rw [if_pos h]; simp [hdirty]
    · rw [if_neg h]; simp [hdirty]
  · intro hd
    have hfil : s.sealed_segments.filter
        (fun seg => decide (t ≤ seg.tombstone_ratio)) = [] := by
      rw [← hdirty]; exact hd
    have hclean : s.sealed_segments.filter
        (fun seg => decide (seg.tombstone_ratio < t)) = s.sealed_segments := by
      rw [List.filter_eq_self]
      intro seg hseg
      have := List.filter_eq_nil_iff.1 hfil seg hseg
      simpa [not_le] using this
    simp only [IcebergStore.compact, hloop, hfil, hclean]
    rw [if_pos (by simp)]
    refine ⟨by simp, by simp [IcebergStore.sealed_segment_count], ?_⟩
    simp [IcebergStore.total_live_records]

/-- C3 (amended): on an id present in exactly one segment, `delete_vector`
leaves `total_records` unchanged; `total_live_records` drops by at most 1
when the id is found in the active segment, and by at most the number of
sealed segments otherwise (the over-approximating delete tombstones the id
in every sealed segment, decrementing each of their live counts). -/
theorem delete_vector_total_counts (s : IcebergStore) (i : ℕ)
    (h : places_count s i = 1) :
    (s.delete_vector i).total_records = s.total_records ∧
    s.total_live_records ≤ (s.delete_vector i).total_live_records +
      (if s.active_segment.records.any (fun r => r.id == i) then 1
       else s.sealed_segments.length) := by
  by_cases hact : s.active_segment.records.any (fun r => r.id == i)
  · refine ⟨by simp [IcebergStore.delete_vector, hact, IcebergStore.total_records], ?_⟩
    rw [if_pos hact]
    simp only [IcebergStore.delete_vector, hact, if_true,
      IcebergStore.total_live_records, Segment.live_count]
    have hlive : subU64 s.active_segment.records.length s.active_segment.deleted.card ≤
        subU64 s.active_segment.records.length
          (Insert.insert i s.active_segment.deleted).card + 1 := by
      by_cases hmem : i ∈ s.active_segment.deleted
      · simp [Finset.insert_eq_self.2 hmem]
      · have hc : (Insert.insert i s.active_segment.deleted).card =
            s.active_segment.deleted.card + 1 := Finset.card_insert_of_not_mem hmem
        simpa [hc] using
          subU64_le_succ_add_one s.active_segment.records.length
            s.active_segment.deleted.card
    omega
  · refine ⟨?_, ?_⟩
    · simp [IcebergStore.delete_vector, hact, IcebergStore.total_records,
        List.map_map, Function.comp_def]
    · rw [if_neg hact]
      simp only [IcebergStore.delete_vector, hact, Bool.false_eq_true, if_false,
        IcebergStore.total_live_records, List.map_map]
      have hsum : (s.sealed_segments.map SealedSegment.live_count).sum ≤
          (s.sealed_segments.map (SealedSegment.live_count ∘
              (fun seg => { seg with deleted := Insert.insert i seg.deleted }))).sum +
            s.sealed_segments.length := by
        refine sum_map_le_sum_map_add_length _ _ s.sealed_segments ?_
        intro seg _
        by_cases hmem : i ∈ seg.deleted
        · simp [SealedSegment.live_count, Function.comp_def,
            Finset.insert_eq_self.2 hmem]
        · have hc : (Insert.insert i seg.deleted).card = seg.deleted.card + 1 :=
            Finset.card_insert_of_not_mem hmem
          simpa [SealedSegment.live_count, Function.comp_def, hc] using
            subU64_le_succ_add_one seg.num_records seg.deleted.card
      omega

/-- Store with one sealed segment (rows 1, 2) and the active record 3:
`open(dim 1, cap 2); insert 1; insert 2; insert 3`. -/
def c3wStore : IcebergStore :=
  stepInsert (stepInsert (stepInsert (IcebergStore.openStore 1 2) 1 [0] "") 2 [0] "") 3 [0] ""

/-- Store with two sealed singleton segments (row 1 and row 2) and an empty
active segment: `open(dim 1, cap 1); insert 1; insert 2`. -/
def c3cStore : IcebergStore :=
  stepInsert (stepInsert (IcebergStore.openStore 1 1) 1 [0] "") 2 [0] ""

/-- C3, counterexample to the claim as stated: id 1 is present in exactly
one place (the first sealed segment), yet `delete_vector 1` drops
`total_live_records` from 2 to 0 — by 2, not by at most 1 — because the
delete also tombstones id 1 in the second sealed segment. -/
theorem delete_vector_live_drop_counterexample :
    places_count c3cStore 1 = 1 ∧
    c3cStore.total_records = 2 ∧
    (c3cStore.delete_vector 1).total_records = 2 ∧
    c3cStore.total_live_records = 2 ∧
    (c3cStore.delete_vector 1).total_live_records = 0 := by
  refine ⟨by decide, by decide, by decide, by decide, by decide⟩

/-- C3, witness: the amended bound evaluated on a store where id 1 sits in
exactly one (sealed) segment. -/
theorem delete_vector_total_counts_witness :
    (c3wStore.delete_vector 1).total_records = c3wStore.total_records ∧
    c3wStore.total_live_records ≤ (c3wStore.delete_vector 1).total_live_records +
      (if c3wStore.active_segment.records.any (fun r => r.id == 1) then 1
       else c3wStore.sealed_segments.length) :=
  delete_vector_total_counts c3wStore 1 (by decide)

/-! ### Reachability invariant for sealed segments (C4) -/

/-- Every sealed segment the store creates is non-empty and its file has
exactly `num_records` rows. -/
def SealedInv (s : IcebergStore) : Prop :=
  ∀ seg ∈ s.sealed_segments, 0 < seg.num_records ∧
    seg.file.ids.length = seg.num_records

@[simp] lemma write_parquet_ids_length (records : List VectorRecord) :
    (write_parquet records).ids.length = records.length := by
  simp [write_parquet]

lemma sealedInv_flush {s : IcebergStore} (h : SealedInv s) :
    SealedInv (flush_active_segment_locked s) := by
  unfold flush_active_segment_locked
  split
  · exact h
  · rename_i hne
    intro seg hseg
    simp only [commit_snapshot_sealed] at hseg
    rcases List.mem_append.1 hseg with h1 | h1
    · exact h seg h1
    · rw [List.mem_singleton] at h1
      subst h1
      refine ⟨?_, by simp [write_parquet]⟩
      have hne2 : s.active_segment.records ≠ [] := by
        simpa [List.isEmpty_iff] using hne
      simpa using List.length_pos.2 hne2

lemma sealedInv_insert {s s' : IcebergStore} {i : ℕ} {e : List ℚ} {m : String}
    (h : SealedInv s) (he : s.insert i e m = Except.ok s') : SealedInv s' := by
  unfold IcebergStore.insert at he
  split at he
  · exact absurd he (by simp)
  · dsimp only at he
    split at he
    · injection he with he
      subst he
      exact sealedInv_flush h
    · injection he with he
      subst he
      exact h

lemma sealedInv_bulk_loop (dim : ℕ) :
    ∀ (n : ℕ) (s : IcebergStore) (ids : List ℕ) (flat : List ℚ),
      SealedInv s → SealedInv (bulk_insert_loop dim s ids flat n) := by
  intro n
  induction n with
  | zero => intro s ids flat h; exact h
  | succ n ih =>
    intro s ids flat h
    simp only [bulk_insert_loop]
    refine ih _ _ _ ?_
    split
    · exact sealedInv_flush h
    · exact h

lemma sealedInv_bulk {s s' : IcebergStore} {ids : List ℕ} {flat : List ℚ}
    {count dim : ℕ} (h : SealedInv s)
    (he : s.bulk_insert ids flat count dim = Except.ok s') : SealedInv s' := by
  unfold IcebergStore.bulk_insert at he
  split at he
  · exact absurd he (by simp)
  · injection he with he
    subst he
    exact sealedInv_bulk_loop _ _ _ _ _ h

lemma sealedInv_delete {s : IcebergStore} (i : ℕ) (h : SealedInv s) :
    SealedInv (s.delete_vector i) := by
  unfold IcebergStore.delete_vector
  split
  · exact h
  · intro seg hseg
    rcases List.mem_map.1 hseg with ⟨seg0, h0, rfl⟩
    simpa using h seg0 h0

lemma sealedInv_compact {s : IcebergStore} (t : ℚ) (h : SealedInv s) :
    SealedInv (s.compact t).1 := by
  have hloop := compact_loop_eq s.dim t s.sealed_segments
  simp only [IcebergStore.compact, hloop]
  split
  · intro seg hseg
    simp only [commit_snapshot_sealed] at hseg
    exact h seg (List.mem_filter.1 hseg).1
  · rename_i hne
    intro seg hseg
    simp only [commit_snapshot_sealed] at hseg
    rcases List.mem_append.1 hseg with h1 | h1
    · exact h seg (List.mem_filter.1 h1).1
    · rw [List.mem_singleton] at h1
      subst h1
      refine ⟨?_, by simp [write_parquet, Function.comp_def]⟩
      have hne2 : ((s.sealed_segments.filter
          (fun seg => decide (t ≤ seg.tombstone_ratio))).map
          (fun seg => read_parquet s.dim seg.file seg.deleted)).flatten ≠ [] := by
        simpa [List.isEmpty_iff] using hne
      simpa using List.length_pos.2 hne2

lemma reachable_sealedInv {s : IcebergStore} (h : Reachable s) : SealedInv s := by
  induction h with
  | of_open dim cap =>
    intro seg hseg
    simp [IcebergStore.openStore, commit_snapshot] at hseg
  | of_insert i e m _ he ih => exact sealedInv_insert ih he
  | of_bulk_insert ids flat count dim _ he ih => exact sealedInv_bulk ih he
  | of_delete i _ ih => exact sealedInv_delete _ ih
  | of_flush _ ih => exact sealedInv_flush ih
  | of_compact t _ ih => exact sealedInv_compact _ ih

/-- C4 (amended): in every reachable state each sealed segment has
`num_records > 0`; the tombstone set itself can grow past `num_records`
(deletes of ids absent from the store enter every sealed set), but the
tombstones that actually name rows of the segment's file number at most
`num_records`. -/
theorem sealed_segment_bounds (s : IcebergStore) (h : Reachable s) :
    ∀ seg ∈ s.sealed_segments, 0 < seg.num_records ∧
      (seg.deleted.filter (fun x => x ∈ seg.file.ids)).card ≤ seg.num_records := by
  intro seg hseg
  obtain ⟨h1, h2⟩ := reachable_sealedInv h seg hseg
  refine ⟨h1, ?_⟩
  calc (seg.deleted.filter (fun x => x ∈ seg.file.ids)).card
      ≤ seg.file.ids.toFinset.card :=
        Finset.card_le_card
          (fun x hx => List.mem_toFinset.2 (Finset.mem_filter.1 hx).2)
    _ ≤ seg.file.ids.length := seg.file.ids.toFinset_card_le
    _ = seg.num_records := h2

/-- Reachable store with one sealed segment: `open(1, 1); insert 1`. -/
def c4wStore : IcebergStore := stepInsert (IcebergStore.openStore 1 1) 1 [0] ""

/-- The sealed segment of `c4wStore`. -/
def c4wSeg : SealedSegment :=
  c4wStore.sealed_segments.headD
    { segment_id := 0, file := { ids := [], flat := [], metas := [] }
    , num_records := 0, deleted := ∅ }

/-- C4, witness: the amended bounds evaluated on the one sealed segment of
a concrete reachable store. -/
theorem sealed_segment_bounds_witness :
    0 < c4wSeg.num_records ∧
    (c4wSeg.deleted.filter (fun x => x ∈ c4wSeg.file.ids)).card ≤ c4wSeg.num_records :=
  sealed_segment_bounds c4wStore
    (Reachable.of_insert 1 [0] "" (Reachable.of_open 1 1) rfl) c4wSeg (by decide)

/-- Reachable store whose sealed segment holds one row but two tombstones:
`open(1, 1); insert 1; delete 2; delete 3` (both deletes miss the active
segment, so both ids land in the sealed tombstone set). -/
def c4cStore : IcebergStore :=
  ((stepInsert (IcebergStore.openStore 1 1) 1 [0] "").delete_vector 2).delete_vector 3

/-- C4, counterexample to the claim as stated: a reachable state whose
sealed segment violates `|tombstones| ≤ num_records`. -/
theorem sealed_segment_bounds_counterexample :
    Reachable c4cStore ∧
    ¬ (∀ seg ∈ c4cStore.sealed_segments, seg.deleted.card ≤ seg.num_records) := by
  constructor
  · exact Reachable.of_delete 3 (Reachable.of_delete 2
      (Reachable.of_insert 1 [0] "" (Reachable.of_open 1 1) rfl))
  · decide

/-! ### Engine search (C7) -/

lemma search_loop_length (all : List VectorRecord) (k : ℕ) :
    ∀ (l : List SearchResult) (acc : List VDBSearchResult),
      (search_loop all k l acc).length ≤ max k (acc.length + 1) := by
  intro l
  induction l with
  | nil => intro acc; simp only [search_loop]; omega
  | cons hr rest ih =>
    intro acc
    simp only [search_loop]
    cases hq : all[hr.id]? with
    | some rec =>
      simp only [hq]
      split
      · rename_i hk
        simp only [List.length_append, List.length_singleton]
        omega
      · rename_i hk
        have hrec := ih (acc ++ [{ id := rec.id, distance := hr.distance
                                 , metadata := rec.metadata }])
        simp only [List.length_append, List.length_singleton] at hrec hk
        omega
    | none =>
      simp only [hq]
      split
      · omega
      · have hrec := ih acc
        omega

lemma search_loop_mem (all : List VectorRecord) (k : ℕ) :
    ∀ (l : List SearchResult) (acc : List VDBSearchResult)
      (out : VDBSearchResult), out ∈ search_loop all k l acc →
      out ∈ acc ∨ ∃ hr ∈ l, ∃ rec, all[hr.id]? = some rec ∧
        out = { id := rec.id, distance := hr.distance, metadata := rec.metadata } := by
  intro l
  induction l with
  | nil =>
    intro acc out h
    exact Or.inl h
  | cons hr rest ih =>
    intro acc out h
    simp only [search_loop] at h
    have step : ∀ acc2 : List VDBSearchResult,
        (out ∈ acc2 ∨ ∃ hr2 ∈ rest, ∃ rec, all[hr2.id]? = some rec ∧
          out = { id := rec.id, distance := hr2.distance, metadata := rec.metadata }) →
        (out ∈ acc2 ∨ ∃ hr2 ∈ hr :: rest, ∃ rec, all[hr2.id]? = some rec ∧
          out = { id := rec.id, distance := hr2.distance, metadata := rec.metadata }) := by
      intro acc2 hcase
      rcases hcase with h1 | ⟨hr2, hm, rec, hq2, hout⟩
      · exact Or.inl h1
      · exact Or.inr ⟨hr2, List.mem_cons_of_mem hr hm, rec, hq2, hout⟩
    cases hq : all[hr.id]? with
    | some rec =>
      rw [hq] at h
      split at h
      · rcases List.mem_append.1 h with h1 | h1
        · exact Or.inl h1
        · rw [List.mem_singleton] at h1
          exact Or.inr ⟨hr, List.mem_cons_self hr rest, rec, hq, h1⟩
      · rcases step _ (ih _ out h) with h1 | h1
        · rcases List.mem_append.1 h1 with h2 | h2
          · exact Or.inl h2
          · rw [List.mem_singleton] at h2
            exact Or.inr ⟨hr, List.mem_cons_self hr rest, rec, hq, h2⟩
        · exact Or.inr h1
    | none =>
      rw [hq] at h
      split at h
      · exact Or.inl h
      · exact step _ (ih _ out h)

/-- C7 (amended): engine `search` raises the dimension-mismatch error
exactly when the query length differs from `dim`; otherwise it sets the
index `ef_search` to `max(2k, 50)`, leaves the store untouched, and
returns at most `max(k, 1)` results — at most `k` for every `k ≥ 1`, but
one result can be emitted when `k = 0`, because the loop pushes a record
before testing `results.size() ≥ k` — each pairing a live record of
`scan_all` (selected by the candidate's internal id) with that candidate's
distance. -/
theorem search_results_spec (db : VectorDB) (query : List ℚ) (k : ℕ)
    (hres : List SearchResult) :
    ((∃ e, db.search query k hres = Except.error e) ↔ query.length ≠ db.dim) ∧
    (query.length = db.dim →
      ∃ db2 res, db.search query k hres = Except.ok (db2, res) ∧
        db2.hnsw.ef_search = max (k * 2) 50 ∧
        db2.store = db.store ∧
        res.length ≤ max k 1 ∧
        ∀ out ∈ res, ∃ hr ∈ hres, ∃ rec, db.store.scan_all[hr.id]? = some rec ∧
          out = { id := rec.id, distance := hr.distance, metadata := rec.metadata }) := by
  constructor
  · unfold VectorDB.search
    by_cases h : query.length = db.dim
    · simp [h]
    · simp [h]
  · intro h
    unfold VectorDB.search
    rw [if_neg (by simp [h])]
    refine ⟨_, _, rfl, rfl, rfl, ?_, ?_⟩
    · simpa using search_loop_length db.store.scan_all k hres []
    · intro out hout
      rcases search_loop_mem db.store.scan_all k hres [] out hout with h1 | h1
      · simp at h1
      · exact h1

/-- Engine with one live record (id 7) in the store and a fresh index. -/
def c7db : VectorDB :=
  { dim := 1
  , store := stepInsert (IcebergStore.openStore 1 1000) 7 [0] "m"
  , hnsw := HNSWIndex.init 1 16 200 50 }

/-- C7, counterexample to the claim as stated: with `k = 0` and one
candidate whose internal id resolves to a live record, `search` returns
one result, not at most `k = 0` — the loop pushes before it tests
`results.size() ≥ k`. -/
theorem search_k_zero_counterexample :
    (VectorDB.search c7db [(0 : ℚ)] 0 [{ distance := 0, id := 0 }]).map
      (fun p => p.2.length) = Except.ok 1 := by
  rfl

/-! ### LSH cosine kernel (C8) -/

/-- C8 (amended): for equal-length vectors, `cosine_sim` equals
`inner(x,y) / (√inner(x,x)·√inner(y,y))` whenever the denominator product
`√inner(x,x)·√inner(y,y)` exceeds `10⁻¹⁰`, and is `0` whenever that
product is at most `10⁻¹⁰`.  The guard is on the product of the norms, not
on each norm separately: one norm below `10⁻¹⁰` does not force a zero
result when the other is large. -/
theorem cosine_sim_formula (a b : List ℝ) (h : a.length = b.length) :
    (1e-10 < Real.sqrt (dot_sum a a) * Real.sqrt (dot_sum b b) →
      cosine_sim a b =
        dot_sum a b / (Real.sqrt (dot_sum a a) * Real.sqrt (dot_sum b b))) ∧
    (Real.sqrt (dot_sum a a) * Real.sqrt (dot_sum b b) ≤ 1e-10 →
      cosine_sim a b = 0) := by
  constructor
  · intro hgt
    unfold cosine_sim
    rw [if_pos hgt]
  · intro hle
    unfold cosine_sim
    rw [if_neg (not_lt.2 hle)]

/-- C8, witness: the formula branch evaluated at the unit pair. -/
theorem cosine_sim_formula_witness :
    cosine_sim [(1 : ℝ), 0] [(1 : ℝ), 0] =
      dot_sum [(1 : ℝ), 0] [(1 : ℝ), 0] /
        (Real.sqrt (dot_sum [(1 : ℝ), 0] [(1 : ℝ), 0]) *
          Real.sqrt (dot_sum [(1 : ℝ), 0] [(1 : ℝ), 0])) := by
  have hd : dot_sum [(1 : ℝ), 0] [(1 : ℝ), 0] = 1 := by
    simp [dot_sum]
  refine (cosine_sim_formula [(1 : ℝ), 0] [(1 : ℝ), 0] rfl).1 ?_
  rw [hd, Real.sqrt_one]
  norm_num

/-- C8, counterexample to the claim as stated: for `x = [10⁻¹¹]` and
`y = [10⁴]` the norm `√inner(x,x) = 10⁻¹¹` is below `10⁻¹⁰`, yet the code
computes `√inner(x,x)·√inner(y,y) = 10⁻⁷ > 10⁻¹⁰` and returns the full
quotient `1`, not `0`. -/
theorem cosine_sim_small_norm_counterexample :
    Real.sqrt (dot_sum [(1 : ℝ) / 10 ^ 11] [(1 : ℝ) / 10 ^ 11]) < 1e-10 ∧
    cosine_sim [(1 : ℝ) / 10 ^ 11] [(10 : ℝ) ^ 4] = 1 := by
  have ha : dot_sum [(1 : ℝ) / 10 ^ 11] [(1 : ℝ) / 10 ^ 11] =
      ((1 : ℝ) / 10 ^ 11) ^ 2 := by
    simp [dot_sum]; ring
  have hb : dot_sum [(10 : ℝ) ^ 4] [(10 : ℝ) ^ 4] = ((10 : ℝ) ^ 4) ^ 2 := by
    simp [dot_sum]; ring
  have hab : dot_sum [(1 : ℝ) / 10 ^ 11] [(10 : ℝ) ^ 4] = 1 / 10 ^ 7 := by
    simp [dot_sum]; norm_num
  have hsa : Real.sqrt (((1 : ℝ) / 10 ^ 11) ^ 2) = (1 : ℝ) / 10 ^ 11 :=
    Real.sqrt_sq (by positivity)
  have hsb : Real.sqrt (((10 : ℝ) ^ 4) ^ 2) = (10 : ℝ) ^ 4 :=
    Real.sqrt_sq (by positivity)
  constructor
  · rw [ha, hsa]
    norm_num
  · unfold cosine_sim
    rw [ha, hb, hab, hsa, hsb]
    rw [if_pos (by norm_num)]
    norm_num

/-! ### Batch ingestion metadata (C9) -/

/-- Every record held by the store — in the active segment or in a sealed
file — carries empty metadata. -/
def AllMetaEmpty (s : IcebergStore) : Prop :=
  (∀ r ∈ s.active_segment.records, r.metadata = "") ∧
  (∀ seg ∈ s.sealed_segments, ∀ m ∈ seg.file.metas, m = "")

lemma allMetaEmpty_flush {s : IcebergStore} (h : AllMetaEmpty s) :
    AllMetaEmpty (flush_active_segment_locked s) := by
  unfold flush_active_segment_locked
  split
  · exact h
  · constructor
    · intro r hr
      simp at hr
    · intro seg hseg
      simp only [commit_snapshot_sealed] at hseg
      rcases List.mem_append.1 hseg with h1 | h1
      · exact h.2 seg h1
      · rw [List.mem_singleton] at h1
        subst h1
        intro m hmem
        simp only [write_parquet] at hmem
        rcases List.mem_map.1 hmem with ⟨r, hr, rfl⟩
        exact h.1 r hr

lemma allMetaEmpty_bulk_loop (dim : ℕ) :
    ∀ (n : ℕ) (s : IcebergStore) (ids : List ℕ) (flat : List ℚ),
      AllMetaEmpty s → AllMetaEmpty (bulk_insert_loop dim s ids flat n) := by
  intro n
  induction n with
  | zero => intro s ids flat h; exact h
  | succ n ih =>
    intro s ids flat h
    simp only [bulk_insert_loop]
    refine ih _ _ _ ?_
    have h1 : AllMetaEmpty { s with active_segment := { s.active_segment with
        records := s.active_segment.records ++
          [{ id := ids.headD 0, embedding := flat.take dim, metadata := "" }] } } := by
      refine ⟨?_, h.2⟩
      intro r hr
      rcases List.mem_append.1 hr with h2 | h2
      · exact h.1 r h2
      · rw [List.mem_singleton] at h2
        subst h2
        rfl
    split
    · exact allMetaEmpty_flush h1
    · exact h1

lemma read_rows_meta (dim : ℕ) (d : Finset ℕ) :
    ∀ (ids : List ℕ) (flat : List ℚ) (metas : List String),
      (∀ m ∈ metas, m = "") →
      ∀ r ∈ read_rows dim d ids flat metas, r.metadata = "" := by
  intro ids
  induction ids with
  | nil =>
    intro flat metas _ r hr
    simp [read_rows] at hr
  | cons i ids ih =>
    intro flat metas hm r hr
    simp only [read_rows] at hr
    have htail : ∀ m ∈ metas.tail, m = "" :=
      fun m hmem => hm m (List.mem_of_mem_tail hmem)
    by_cases hd : i ∈ d
    · rw [if_pos hd] at hr
      exact ih _ _ htail r hr
    · rw [if_neg hd] at hr
      rcases List.mem_cons.1 hr with h1 | h1
      · subst h1
        cases metas with
        | nil => rfl
        | cons m0 ms => exact hm m0 (List.mem_cons_self m0 ms)
      · exact ih _ _ htail r h1

lemma allMetaEmpty_scan {s : IcebergStore} (h : AllMetaEmpty s) :
    ∀ r ∈ s.scan_all, r.metadata = "" := by
  intro r hr
  unfold IcebergStore.scan_all at hr
  rcases List.mem_append.1 hr with h1 | h1
  · rcases List.mem_flatten.1 h1 with ⟨l, hl, hrl⟩
    rcases List.mem_map.1 hl with ⟨seg, hseg, rfl⟩
    exact read_rows_meta s.dim seg.deleted seg.file.ids seg.file.flat
      seg.file.metas (h.2 seg hseg) r hrl
  · exact h.1 r (List.mem_filter.1 h1).1

/-- C9: `ingest_batch` never reads the metadata column — its result is the
same whatever that column holds — and every record it writes carries empty
metadata: starting from a store all of whose records have empty metadata
(in particular a fresh one), after a successful ingest every record
`scan_all` returns still has metadata `""`. -/
theorem ingest_batch_empty_metadata (db : VectorDB) (batch : RecordBatch)
    (m : Option (List String)) :
    (VectorDB.ingest_batch db { batch with metadata_col := m } =
      VectorDB.ingest_batch db batch) ∧
    (AllMetaEmpty db.store → ∀ db2 n,
      VectorDB.ingest_batch db batch = Except.ok (db2, n) →
      ∀ r ∈ db2.store.scan_all, r.metadata = "") := by
  constructor
  · rfl
  · intro hm db2 n he
    unfold VectorDB.ingest_batch at he
    cases hid : batch.id_col with
    | none =>
      rw [hid] at he
      simp at he
    | some ids =>
      rw [hid] at he
      cases hemb : batch.embedding_col with
      | none =>
        rw [hemb] at he
        simp at he
      | some p =>
        rw [hemb] at he
        obtain ⟨ls, flat⟩ := p
        dsimp only at he
        by_cases hls : ls ≠ db.dim
        · rw [if_pos hls] at he
          simp at he
        · rw [if_neg hls] at he
          cases hbulk : db.store.bulk_insert ids flat batch.num_rows db.dim with
          | error e =>
            rw [hbulk] at he
            simp at he
          | ok store2 =>
            rw [hbulk] at he
            simp only [Except.ok.injEq, Prod.mk.injEq] at he
            obtain ⟨hdb, -⟩ := he
            have hstore2 : AllMetaEmpty store2 := by
              unfold IcebergStore.bulk_insert at hbulk
              split at hbulk
              · simp at hbulk
              · injection hbulk with hbulk
                rw [← hbulk]
                exact allMetaEmpty_bulk_loop db.dim batch.num_rows db.store ids flat hm
            have hdbstore : db2.store = store2 := by rw [← hdb]
            rw [hdbstore]
            exact allMetaEmpty_scan hstore2

end vectordb
